import Mathlib

/-!
Shallow embedding of the cell-gc Lisp interpreter
(`src/lisp/src/value.rs`, `src/lisp/src/compile.rs`, `src/lisp/src/vm.rs`).

Modelling conventions:
* `InternedString` is modelled as `String`; interning makes pointer
  equality coincide with text equality, so plain string equality is the
  faithful translation of interned-handle comparison.
* Heap references (`PairRef`, `VecRef`, `CodeRef`, ...) that are never
  mutated are modelled structurally; the only mutable heap objects the
  interpreter itself mutates are environment frames, which are modelled
  as indices into an explicit store (a list of frames) threaded through
  every operation.
* Fallible Rust code returning `Result<_, String>` becomes
  `Except String _` or the `EvalRes` type below.
* All recursive interpreter functions take explicit fuel (a `Nat`),
  consumed on every call; exhausting fuel is a distinguished outcome
  (`timeout` / a reserved compile error), separate from the program
  errors the Rust code actually produces.  Every terminating run of the
  Rust code corresponds to a run of the model with sufficiently large
  fuel.
-/

namespace Lisp

mutual

/-- Runtime values, from `value.rs` `enum Value` together with the
variants (`Unspecified`, `Char`, `ImmString`, `StringObj`) that
`compile.rs` additionally requires of it.  `Lambda` holds a heap pair
whose car is a code object and whose cdr is an environment
(`vm.rs` constructs exactly this shape); `Builtin` holds an opaque
identifier standing for the Rust function pointer; `Environment` holds
the index of a frame in the explicit store. -/
inductive Value where
  | nil : Value
  | unspecified : Value
  | bool (b : Bool) : Value
  | int (n : Int) : Value
  | char (c : Char) : Value
  | immString (s : String) : Value
  | stringObj (s : String) : Value
  | symbol (s : String) : Value
  | lambda (car : Value) (cdr : Value) : Value
  | code (c : Code) : Value
  | builtin (id : Nat) : Value
  | cons (car : Value) (cdr : Value) : Value
  | vector (elems : List Value) : Value
  | environment (idx : Nat) : Value

/-- Compiled expressions, from `compile.rs` `enum Expr`. -/
inductive Expr where
  | con (v : Value) : Expr
  | var (s : String) : Expr
  | fn (c : Code) : Expr
  | app (es : List Expr) : Expr
  | seq (es : List Expr) : Expr
  | ifE (cond : Expr) (t_expr : Expr) (f_expr : Expr) : Expr
  | defE (name : String) (value : Expr) : Expr
  | setE (name : String) (value : Expr) : Expr
  | letrecE (names : List String) (exprs : List Expr) (body : Expr) : Expr

/-- Code objects, from `compile.rs` `struct Code`. -/
inductive Code where
  | mk (params : List String) (rest : Bool) (body : Expr) : Code

end

def Code.params : Code → List String
  | .mk p _ _ => p

def Code.rest : Code → Bool
  | .mk _ r _ => r

def Code.body : Code → Expr
  | .mk _ _ b => b

/-- `value.rs` `Value::to_bool`: every value is true except `#f`. -/
def Value.to_bool : Value → Bool
  | .bool false => false
  | _ => true

/-- `value.rs` `Value::is_nil`. -/
def Value.is_nil : Value → Bool
  | .nil => true
  | _ => false

/-- `value.rs` `Value::as_pair`. -/
def Value.as_pair (v : Value) (msg : String) : Except String (Value × Value) :=
  match v with
  | .cons a d => .ok (a, d)
  | _ => .error msg

/-- `value.rs` `Value::as_symbol`. -/
def Value.as_symbol (v : Value) (msg : String) : Except String String :=
  match v with
  | .symbol s => .ok s
  | _ => .error msg

/-- Build the Lisp list holding the given elements (used for the rest
argument in `vm.rs` `apply`, which conses the drained surplus arguments
in reverse, producing the list in original order). -/
def listToValue : List Value → Value
  | [] => .nil
  | v :: vs => .cons v (listToValue vs)

-- Compiler ------------------------------------------------------------------

/-- `compile.rs` `fn seq`: zero expressions collapse to the unspecified
constant, one expression is returned unchanged, two or more build a
`Seq` node. -/
def seq : List Expr → Expr
  | [] => .con .unspecified
  | [e] => e
  | es => .seq es

/-- `compile.rs` `fn letrec`: an empty name list is a passthrough to the
body; otherwise a `Letrec` node is built. -/
def letrec (names : List String) (exprs : List Expr) (body : Expr) : Expr :=
  match names with
  | [] => body
  | _ => .letrecE names exprs body

/-- `compile.rs` `fn is_definition`. -/
def isDefinition : Value → Bool
  | .cons (.symbol "define") _ => true
  | _ => false

/-- `compile.rs` `fn flatten_body`: convert a body list to a vector,
splicing nested `(begin ...)` forms.  Iterating a non-list value yields
the iterator's "improper list" error. -/
def flattenBody : Value → Except String (List Value)
  | .nil => .ok []
  | .cons (.cons (.symbol "begin") inner) rest =>
    match flattenBody inner with
    | .ok a =>
      match flattenBody rest with
      | .ok b => .ok (a ++ b)
      | .error m => .error m
    | .error m => .error m
  | .cons form rest =>
    match flattenBody rest with
    | .ok b => .ok (form :: b)
    | .error m => .error m
  | _ => .error "improper list"

/-- The parameter-list walk in the `lambda` arm of
`compile.rs` `compile_expr`: collect symbols from cons cells; a `Nil`
tail means no rest parameter, a symbol tail is the rest parameter. -/
def parseParams : Value → Except String (List String × Bool)
  | .nil => .ok ([], false)
  | .symbol s => .ok ([s], true)
  | .cons (.symbol s) rest =>
    match parseParams rest with
    | .ok (ns, r) => .ok (s :: ns, r)
    | .error m => .error m
  | .cons _ _ => .error "syntax error in lambda arguments"
  | _ => .error "syntax error in lambda arguments"

mutual

/-- `compile.rs` `fn compile_expr`.  Fuel is consumed on every recursive
call; fuel 0 is a reserved out-of-fuel error that the Rust code (whose
recursion always terminates) never produces. -/
def compileExpr : Nat → Value → Except String Expr
  | 0, _ => .error "fuel"
  | fuel+1, v =>
    match v with
    | .symbol s => .ok (.var s)
    | .cons f tail =>
      match f with
      | .symbol s =>
        if s = "lambda" then
          match tail.as_pair "syntax error in lambda" with
          | .ok (paramList, bodyForms) =>
            match parseParams paramList with
            | .ok (names, rest) =>
              match compileBody fuel bodyForms with
              | .ok body => .ok (.fn (.mk names rest body))
              | .error m => .error m
            | .error m => .error m
          | .error m => .error m
        else if s = "quote" then
          match tail.as_pair "(quote) with no arguments" with
          | .ok (datum, rest) =>
            if rest.is_nil then .ok (.con datum)
            else .error "too many arguments to (quote)"
          | .error m => .error m
        else if s = "if" then
          match tail.as_pair "(if) with no arguments" with
          | .ok (c, rest) =>
            match compileExpr fuel c with
            | .ok cond =>
              match rest.as_pair "missing arguments after (if COND)" with
              | .ok (tc, rest2) =>
                match compileExpr fuel tc with
                | .ok t_expr =>
                  if rest2.is_nil then .ok (.ifE cond t_expr (.con .unspecified))
                  else
                    match rest2.as_pair "missing 'else' argument after (if COND X)" with
                    | .ok (fc, rest3) =>
                      if rest3.is_nil then
                        match compileExpr fuel fc with
                        | .ok f_expr => .ok (.ifE cond t_expr f_expr)
                        | .error m => .error m
                      else .error "too many arguments in (if) expression"
                    | .error m => .error m
                | .error m => .error m
              | .error m => .error m
            | .error m => .error m
          | .error m => .error m
        else if s = "begin" then
          match compileListV fuel tail with
          | .ok es => .ok (seq es)
          | .error m => .error m
        else if s = "define" then
          .error "(define) is allowed only at toplevel or in the body of a function or let-form"
        else if s = "letrec" ∨ s = "letrec*" then
          match tail.as_pair "letrec*: bindings required" with
          | .ok (bindings, bodyForms) =>
            match parseLetrecBindings fuel bindings with
            | .ok (names, exprs) =>
              match compileBody fuel bodyForms with
              | .ok body => .ok (letrec names exprs body)
              | .error m => .error m
            | .error m => .error m
          | .error m => .error m
        else if s = "set!" then
          match tail.as_pair "(set!) with no name" with
          | .ok (first, rest) =>
            match first.as_symbol "(set!) first argument must be a name" with
            | .ok name =>
              match rest.as_pair "(set!) with no value" with
              | .ok (e, rest2) =>
                if rest2.is_nil then
                  match compileExpr fuel e with
                  | .ok value => .ok (.setE name value)
                  | .error m => .error m
                else .error "(set!): too many arguments"
              | .error m => .error m
            | .error m => .error m
          | .error m => .error m
        else
          match compileListV fuel v with
          | .ok es => .ok (.app es)
          | .error m => .error m
      | _ =>
        match compileListV fuel v with
        | .ok es => .ok (.app es)
        | .error m => .error m
    | .bool b => .ok (.con (.bool b))
    | .int n => .ok (.con (.int n))
    | .char c => .ok (.con (.char c))
    | .immString s => .ok (.con (.immString s))
    | .stringObj s => .ok (.con (.stringObj s))
    | _ => .error "not an expression"

/-- Compiling each element of a Lisp list of forms in order (the value
iterator interleaved with `compile_expr`, as in the `begin` and
application arms of `compile_expr`); an improper tail yields the
iterator's "improper list" error. -/
def compileListV : Nat → Value → Except String (List Expr)
  | 0, _ => .error "fuel"
  | fuel+1, v =>
    match v with
    | .nil => .ok []
    | .cons a d =>
      match compileExpr fuel a with
      | .ok e =>
        match compileListV fuel d with
        | .ok es => .ok (e :: es)
        | .error m => .error m
      | .error m => .error m
    | _ => .error "improper list"

/-- Compiling an already-flattened vector of forms in order (the
`drain(..).map(compile_expr)` in `compile.rs` `compile_body`). -/
def compileList : Nat → List Value → Except String (List Expr)
  | 0, _ => .error "fuel"
  | fuel+1, vs =>
    match vs with
    | [] => .ok []
    | v :: rest =>
      match compileExpr fuel v with
      | .ok e =>
        match compileList fuel rest with
        | .ok es => .ok (e :: es)
        | .error m => .error m
      | .error m => .error m

/-- The leading-definition loop of `compile.rs` `compile_body`: parse
`(define ...)` forms while they lead the form list, returning the
collected names, initializer expressions, and the remaining forms. -/
def collectDefines : Nat → List Value → Except String (List String × List Expr × List Value)
  | 0, _ => .error "fuel"
  | fuel+1, forms =>
    match forms with
    | [] => .ok ([], [], [])
    | form :: rest =>
      if isDefinition form then
        match parseDefine fuel form with
        | .ok (name, e) =>
          match collectDefines fuel rest with
          | .ok (ns, es, r) => .ok (name :: ns, e :: es, r)
          | .error m => .error m
        | .error m => .error m
      else .ok ([], [], form :: rest)

/-- `compile.rs` `fn compile_body`. -/
def compileBody : Nat → Value → Except String Expr
  | 0, _ => .error "fuel"
  | fuel+1, bodyList =>
    match flattenBody bodyList with
    | .ok forms =>
      match collectDefines fuel forms with
      | .ok (names, exprs, restForms) =>
        match restForms with
        | [] => .error "expression required"
        | _ =>
          match compileList fuel restForms with
          | .ok bodyExprs => .ok (letrec names exprs (seq bodyExprs))
          | .error m => .error m
      | .error m => .error m
    | .error m => .error m

/-- `compile.rs` `fn parse_define`, including the loop that rewrites
`(define (name . formals) body...)` into
`(define name (lambda formals body...))` until the pattern position
holds a plain symbol. -/
def parseDefine : Nat → Value → Except String (String × Expr)
  | 0, _ => .error "fuel"
  | fuel+1, defn =>
    match defn.as_pair "internal error" with
    | .ok (defineSymbol, tail) =>
      match tail.as_pair "(define) with no name" with
      | .ok (pattern, rest) =>
        match pattern with
        | .symbol ident =>
          match rest.as_pair "(define) with no value" with
          | .ok (e, rest2) =>
            if rest2.is_nil then
              match compileExpr fuel e with
              | .ok value => .ok (ident, value)
              | .error m => .error m
            else .error "too many arguments in (define)"
          | .error m => .error m
        | .cons name formals =>
          parseDefine fuel
            (.cons defineSymbol
              (.cons name
                (.cons (.cons (.symbol "lambda") (.cons formals rest)) .nil)))
        | _ => .error "(define) with a non-symbol name"
      | .error m => .error m
    | .error m => .error m

/-- The per-binding parse loop of the `letrec`/`letrec*` arm of
`compile.rs` `compile_expr`. -/
def parseLetrecBindings : Nat → Value → Except String (List String × List Expr)
  | 0, _ => .error "fuel"
  | fuel+1, bindings =>
    match bindings with
    | .nil => .ok ([], [])
    | .cons binding rest =>
      match binding.as_pair "letrec*: invalid binding" with
      | .ok (nameV, r1) =>
        match nameV.as_symbol "letrec*: name required" with
        | .ok name =>
          match r1.as_pair "letrec*: value required for binding" with
          | .ok (e, r2) =>
            if r2.is_nil then
              match compileExpr fuel e with
              | .ok ce =>
                match parseLetrecBindings fuel rest with
                | .ok (ns, es) => .ok (name :: ns, ce :: es)
                | .error m => .error m
              | .error m => .error m
            else .error "(letrec*): too many arguments"
          | .error m => .error m
        | .error m => .error m
      | .error m => .error m
    | _ => .error "improper list"

end

/-- `compile.rs` `fn compile_toplevel`. -/
def compileToplevel (fuel : Nat) (v : Value) : Except String Expr :=
  if isDefinition v then
    match parseDefine fuel v with
    | .ok (name, value) => .ok (.defE name value)
    | .error m => .error m
  else compileExpr fuel v

-- Environments and the trampolined evaluator --------------------------------

/-- `vm.rs` `struct Environment`: a frame with an optional parent and
parallel name/value vectors.  `parent` is the index of the parent frame
in the store. -/
structure Environment where
  parent : Option Nat
  names : List String
  values : List Value

/-- The managed heap's set of environment frames.  `EnvironmentRef`
becomes an index into this list; every frame is allocated by appending,
so a frame's parent index is always smaller than its own index. -/
abbrev Store := List Environment

/-- Heap allocation of a frame: returns the new reference and store. -/
def allocEnv (st : Store) (e : Environment) : Nat × Store :=
  (List.length st, st ++ [e])

/-- `vm.rs` `EnvironmentRef::push`: append a binding to the given frame.
An invalid reference (impossible for references produced by `allocEnv`)
leaves the store unchanged. -/
def envPush (st : Store) (idx : Nat) (name : String) (v : Value) : Store :=
  match st[idx]? with
  | some f => List.set st idx ⟨f.parent, f.names ++ [name], f.values ++ [v]⟩
  | none => st

/-- Overwrite slot `i` of frame `idx` (the `values.set(i, value)` used by
`EnvironmentRef::set` and the `letrec` initializer loop). -/
def storeSetValue (st : Store) (idx : Nat) (i : Nat) (v : Value) : Store :=
  match st[idx]? with
  | some f => List.set st idx ⟨f.parent, f.names, List.set f.values i v⟩
  | none => st

/-- The `for i in (0..names.len()).rev()` scan of `vm.rs`
`EnvironmentRef::lookup`, expressed recursively: later bindings are
checked first, so the returned index is the last occurrence of the
name. -/
def lastIdxOf (name : String) : List String → Option Nat
  | [] => none
  | n :: rest =>
    match lastIdxOf name rest with
    | some i => some (i + 1)
    | none => if n = name then some 0 else none

/-- The frame-chain walk of `vm.rs` `EnvironmentRef::lookup`.  The Rust
loop walks the parent chain without fuel; since every chain in a store
of `n` frames visits at most `n` distinct frames (parents are allocated
before children), `lookup` below runs this with fuel `n + 1`, which is
always enough. -/
def lookupGo (st : Store) : Nat → Nat → String → Except String (Nat × Nat)
  | 0, _, name => .error ("undefined symbol: " ++ name)
  | fuel+1, env, name =>
    match st[env]? with
    | none => .error ("undefined symbol: " ++ name)
    | some f =>
      match lastIdxOf name f.names with
      | some i => .ok (env, i)
      | none =>
        match f.parent with
        | some p => lookupGo st fuel p name
        | none => .error ("undefined symbol: " ++ name)

/-- `vm.rs` `EnvironmentRef::lookup`. -/
def lookup (st : Store) (env : Nat) (name : String) : Except String (Nat × Nat) :=
  lookupGo st (List.length st + 1) env name

/-- `vm.rs` `EnvironmentRef::get`. -/
def envGet (st : Store) (env : Nat) (name : String) : Except String Value :=
  match lookup st env name with
  | .ok (j, i) =>
    match st[j]? with
    | some f =>
      match f.values[i]? with
      | some v => .ok v
      | none => .error "internal error: bad frame"
    | none => .error "internal error: bad frame"
  | .error m => .error m

/-- `vm.rs` `EnvironmentRef::set`: locate the binding with `lookup`,
then overwrite that one value slot in place. -/
def envSet (st : Store) (env : Nat) (name : String) (v : Value) :
    Except String Store :=
  match lookup st env name with
  | .ok (j, i) => .ok (storeSetValue st j i v)
  | .error m => .error m

/-- `vm.rs` `enum Trampoline`: a finished value, or a pending tail call
(callee value plus fully evaluated arguments) to be resolved by the
driver loop after the stack is unwound. -/
inductive Trampoline where
  | value (v : Value) : Trampoline
  | tailCall (func : Value) (args : List Value) : Trampoline

/-- Outcome of a fueled evaluator step: a result, a program error
(the Rust `Err(String)`), or fuel exhaustion (a model artifact — the
Rust code either runs forever or produces one of the other two). -/
inductive EvalRes (α : Type) where
  | ok (a : α) : EvalRes α
  | err (msg : String) : EvalRes α
  | timeout : EvalRes α

/-- The external builtins registry (`builtins.rs` is outside this core):
a builtin receives its identifier's native procedure, the evaluated
arguments and the heap, and produces a trampoline result.  The
evaluator is parameterized over it. -/
def Builtins := Nat → List Value → Store → EvalRes (Trampoline × Store)

mutual

/-- `vm.rs` `fn eval_to_tail_call`: evaluate an expression until it
reaches a tail call, packaging the tail call as a
`Trampoline.tailCall` instead of recursing into the callee. -/
def evalToTailCall (B : Builtins) : Nat → Expr → Nat → Store → EvalRes (Trampoline × Store)
  | 0, _, _, _ => .timeout
  | fuel+1, e, env, st =>
    match e with
    | .con k => .ok (.value k, st)
    | .var s =>
      match envGet st env s with
      | .ok v => .ok (.value v, st)
      | .error m => .err m
    | .fn c => .ok (.value (.lambda (.code c) (.environment env)), st)
    | .app es =>
      match es with
      | [] => .err "internal error: empty application"
      | fe :: argEs =>
        match evalCompiled B fuel fe env st with
        | .ok (func, st1) =>
          match evalArgs B fuel argEs env st1 with
          | .ok (args, st2) => .ok (.tailCall func args, st2)
          | .err m => .err m
          | .timeout => .timeout
        | .err m => .err m
        | .timeout => .timeout
    | .seq es => evalSeq B fuel es env st
    | .ifE c t f =>
      match evalCompiled B fuel c env st with
      | .ok (condValue, st1) =>
        evalToTailCall B fuel (if condValue.to_bool then t else f) env st1
      | .err m => .err m
      | .timeout => .timeout
    | .letrecE names exprs body =>
      match allocEnv st ⟨some env, names, List.map (fun _ => Value.nil) names⟩ with
      | (idx, st1) =>
        match evalInits B fuel exprs idx 0 st1 with
        | .ok st2 => evalToTailCall B fuel body idx st2
        | .err m => .err m
        | .timeout => .timeout
    | .defE name vexpr =>
      match evalCompiled B fuel vexpr env st with
      | .ok (v, st1) => .ok (.value .nil, envPush st1 env name v)
      | .err m => .err m
      | .timeout => .timeout
    | .setE name vexpr =>
      match evalCompiled B fuel vexpr env st with
      | .ok (v, st1) =>
        match envSet st1 env name v with
        | .ok st2 => .ok (.value .nil, st2)
        | .error m => .err m
      | .err m => .err m
      | .timeout => .timeout
  termination_by structural fuel => fuel

/-- The `Expr::Seq` arm of `eval_to_tail_call`: all but the last element
are evaluated (non-tail) for effect, the last is evaluated in tail
position; an empty sequence yields `Nil` (the compiler never emits
one). -/
def evalSeq (B : Builtins) : Nat → List Expr → Nat → Store → EvalRes (Trampoline × Store)
  | 0, _, _, _ => .timeout
  | _+1, [], _, st => .ok (.value .nil, st)
  | fuel+1, [e], env, st => evalToTailCall B fuel e env st
  | fuel+1, e :: rest, env, st =>
    match evalCompiled B fuel e env st with
    | .ok (_, st1) => evalSeq B fuel rest env st1
    | .err m => .err m
    | .timeout => .timeout
  termination_by structural fuel => fuel

/-- The argument loop of the `Expr::App` arm: evaluate the argument
expressions left to right, each in non-tail position. -/
def evalArgs (B : Builtins) : Nat → List Expr → Nat → Store → EvalRes (List Value × Store)
  | 0, _, _, _ => .timeout
  | _+1, [], _, st => .ok ([], st)
  | fuel+1, e :: rest, env, st =>
    match evalCompiled B fuel e env st with
    | .ok (v, st1) =>
      match evalArgs B fuel rest env st1 with
      | .ok (vs, st2) => .ok (v :: vs, st2)
      | .err m => .err m
      | .timeout => .timeout
    | .err m => .err m
    | .timeout => .timeout
  termination_by structural fuel => fuel

/-- The initializer loop of the `Expr::Letrec` arm: evaluate each
initializer in order against the new frame, storing its value into the
frame's slot before the next initializer runs. -/
def evalInits (B : Builtins) : Nat → List Expr → Nat → Nat → Store → EvalRes Store
  | 0, _, _, _, _ => .timeout
  | _+1, [], _, _, st => .ok st
  | fuel+1, e :: rest, envIdx, i, st =>
    match evalCompiled B fuel e envIdx st with
    | .ok (v, st1) => evalInits B fuel rest envIdx (i + 1) (storeSetValue st1 envIdx i v)
    | .err m => .err m
    | .timeout => .timeout
  termination_by structural fuel => fuel

/-- `vm.rs` `fn apply`: dispatch a pending call to a builtin or a
closure.  A closure call checks arity (required = formals minus one if
there is a rest parameter), collects surplus arguments into the rest
list, builds the new frame parented at the closure's captured
environment, and evaluates the body in tail position. -/
def applyF (B : Builtins) : Nat → Value → List Value → Store → EvalRes (Trampoline × Store)
  | 0, _, _, _ => .timeout
  | fuel+1, fval, args, st =>
    match fval with
    | .builtin id => B id args st
    | .lambda (.code c) (.environment parentIdx) =>
      let nRequired := List.length c.params - (if c.rest then 1 else 0)
      if List.length args < nRequired then .err "apply: not enough arguments"
      else if c.rest then
        match allocEnv st ⟨some parentIdx, c.params,
            List.take nRequired args ++ [listToValue (List.drop nRequired args)]⟩ with
        | (idx, st1) => evalToTailCall B fuel c.body idx st1
      else if nRequired < List.length args then .err "apply: too many arguments"
      else
        match allocEnv st ⟨some parentIdx, c.params, args⟩ with
        | (idx, st1) => evalToTailCall B fuel c.body idx st1
    | .lambda _ _ => .err "internal error: bad lambda"
    | _ => .err "apply: not a function"
  termination_by structural fuel => fuel

/-- `vm.rs` `Trampoline::eval`: the driver loop.  While the result is a
pending tail call, dispatch it through `apply`; a finished value is
returned.  The Rust `while let` loop iterates without growing the
native stack; here each iteration consumes one unit of fuel. -/
def trampolineEval (B : Builtins) : Nat → Trampoline → Store → EvalRes (Value × Store)
  | 0, _, _ => .timeout
  | _+1, .value v, st => .ok (v, st)
  | fuel+1, .tailCall func args, st =>
    match applyF B fuel func args st with
    | .ok (t, st1) => trampolineEval B fuel t st1
    | .err m => .err m
    | .timeout => .timeout
  termination_by structural fuel => fuel

/-- `vm.rs` `fn eval_compiled`: run `eval_to_tail_call`, then resolve
the resulting trampoline with the driver loop. -/
def evalCompiled (B : Builtins) : Nat → Expr → Nat → Store → EvalRes (Value × Store)
  | 0, _, _, _ => .timeout
  | fuel+1, e, env, st =>
    match evalToTailCall B fuel e env st with
    | .ok (t, st1) => trampolineEval B fuel t st1
    | .err m => .err m
    | .timeout => .timeout
  termination_by structural fuel => fuel

end

-- The CPS transform ----------------------------------------------------------

/-- Modelled from the spec: `InternedString::gensym` is code of this
repository that is not under `src/` (only its callers in `compile.rs`
are).  Per §4.4 it is a process-wide unique-symbol generator whose
results are distinct from all user-visible and previously generated
names; modelled as a threaded counter producing `"#g<n>"` (the reader
cannot produce symbols containing `#`). -/
def gensym (n : Nat) : String × Nat :=
  ("#g" ++ toString n, n + 1)

/-- `compile.rs` `fn lambda` (CPS section): a one-parameter, no-rest
function literal. -/
def lambdaE (k : String) (body : Expr) : Expr :=
  .fn (.mk [k] false body)

/-- `compile.rs` `fn call` (CPS section): a one-argument application. -/
def call (f : Expr) (arg : Expr) : Expr :=
  .app [f, arg]

/-- `compile.rs` `fn call_continuation`. -/
def callContinuation (k : String) (arg : Expr) : Expr :=
  call (.var k) arg

/-- Outcome of the CPS transform.  `cps` returns a bare `Expr` in Rust —
it has no error channel at all; its unimplemented arms (`cps_fun`,
`cps_app`, `cps_letrec`, `cps_def`) execute `unimplemented!()`, a panic
that unwinds and aborts the computation, modelled as `panicked`.
`timeout` is the model's fuel-exhaustion artifact. -/
inductive CpsRes where
  | ok (e : Expr) (counter : Nat) : CpsRes
  | panicked : CpsRes
  | timeout : CpsRes

mutual

/-- `compile.rs` `fn cps` with its helpers `cps_var`, `cps_quote`,
`cps_set`, `cps_def`, `cps_if`, `cps_seq`, `cps_fun`, `cps_app`,
`cps_letrec` inlined.  The gensym counter is threaded in the order the
Rust code calls `InternedString::gensym` (arguments evaluate left to
right).  Note that the `If` arm CPS-converts `ifref.t_expr()` for
*both* produced branches, exactly as the source does. -/
def cps : Nat → Nat → Expr → CpsRes
  | 0, _, _ => .timeout
  | fuel+1, n, e =>
    match e with
    | .var s =>
      match gensym n with
      | (k, n1) => .ok (lambdaE k (callContinuation k (.var s))) n1
    | .con v =>
      match gensym n with
      | (k, n1) => .ok (lambdaE k (callContinuation k (.con v))) n1
    | .setE name valueExpr =>
      match gensym n with
      | (k, n1) =>
        match gensym n1 with
        | (value, n2) =>
          match cps fuel n2 valueExpr with
          | .ok cv n3 =>
            .ok (lambdaE k
              (call cv
                (lambdaE value
                  (callContinuation k (.setE name (.var value)))))) n3
          | .panicked => .panicked
          | .timeout => .timeout
    | .defE _ _ => .panicked
    | .ifE condE tE _fE =>
      match gensym n with
      | (k, n1) =>
        match gensym n1 with
        | (condition, n2) =>
          match gensym n2 with
          | (consequent, n3) =>
            match gensym n3 with
            | (alternative, n4) =>
              match cps fuel n4 condE with
              | .ok cc n5 =>
                match cps fuel n5 tE with
                | .ok tc n6 =>
                  match cps fuel n6 tE with
                  | .ok fc n7 =>
                    .ok (lambdaE k
                      (call cc
                        (lambdaE condition
                          (.ifE (.var condition)
                            (call tc
                              (lambdaE consequent
                                (callContinuation k (.var consequent))))
                            (call fc
                              (lambdaE alternative
                                (callContinuation k (.var alternative)))))))) n7
                  | .panicked => .panicked
                  | .timeout => .timeout
                | .panicked => .panicked
                | .timeout => .timeout
              | .panicked => .panicked
              | .timeout => .timeout
    | .seq es => cpsSeqGo fuel n es
    | .fn _ => .panicked
    | .app _ => .panicked
    | .letrecE _ _ _ => .panicked

/-- `compile.rs` `fn cps_seq`: the `rev().fold(cps(Con Nil), step)`.
The initial continuation `cps (Con Nil)` is computed first (so it draws
the earliest gensyms), then the fold steps run from the last element to
the first; each step draws four fresh names and then CPS-converts its
element. -/
def cpsSeqGo : Nat → Nat → List Expr → CpsRes
  | 0, _, _ => .timeout
  | fuel+1, n, [] => cps fuel n (.con .nil)
  | fuel+1, n, e :: rest =>
    match cpsSeqGo fuel n rest with
    | .ok cont n1 =>
      match gensym n1 with
      | (k, n2) =>
        match gensym n2 with
        | (void, n3) =>
          match gensym n3 with
          | (a, n4) =>
            match gensym n4 with
            | (b, n5) =>
              match cps fuel n5 e with
              | .ok ec n6 =>
                .ok (lambdaE k
                  (call cont
                    (lambdaE b
                      (call ec
                        (lambdaE a
                          (callContinuation k
                            (call
                              (call (lambdaE void (.var b)) (.var a))
                              (.con .nil)))))))) n6
              | .panicked => .panicked
              | .timeout => .timeout
    | .panicked => .panicked
    | .timeout => .timeout

end

-- Auxiliary definitions used by the theorems --------------------------------

mutual

/-- The sequence-normalization invariant: every `Seq` node in the
expression tree has at least two elements.  (`Con` leaves hold data,
not expression nodes, and are not descended into.) -/
def seqInv : Expr → Bool
  | .con _ => true
  | .var _ => true
  | .fn c => seqInvCode c
  | .app es => seqInvList es
  | .seq es => decide (2 ≤ List.length es) && seqInvList es
  | .ifE c t f => seqInv c && seqInv t && seqInv f
  | .defE _ e => seqInv e
  | .setE _ e => seqInv e
  | .letrecE _ es b => seqInvList es && seqInv b

def seqInvCode : Code → Bool
  | .mk _ _ b => seqInv b

def seqInvList : List Expr → Bool
  | [] => true
  | e :: es => seqInv e && seqInvList es

end

mutual

/-- Whether the constant expression `Con (Int n)` occurs anywhere in
the expression tree. -/
def hasIntCon (n : Int) : Expr → Bool
  | .con (.int m) => decide (m = n)
  | .con _ => false
  | .var _ => false
  | .fn c => hasIntConCode n c
  | .app es => hasIntConList n es
  | .seq es => hasIntConList n es
  | .ifE c t f => hasIntCon n c || hasIntCon n t || hasIntCon n f
  | .defE _ e => hasIntCon n e
  | .setE _ e => hasIntCon n e
  | .letrecE _ es b => hasIntConList n es || hasIntCon n b

def hasIntConCode (n : Int) : Code → Bool
  | .mk _ _ b => hasIntCon n b

def hasIntConList (n : Int) : List Expr → Bool
  | [] => false
  | e :: es => hasIntCon n e || hasIntConList n es

end

/-- The expression produced by a successful CPS conversion. -/
def cpsOut : CpsRes → Option Expr
  | .ok e _ => some e
  | _ => none

/-- For a CPS output of the shape `cps_if` produces — a lambda whose
body applies the converted condition to a lambda whose body is an
`If` — the false branch of that produced `If`. -/
def producedFalseBranch : CpsRes → Option Expr
  | .ok (.fn (.mk _ _ (.app [_, .fn (.mk _ _ (.ifE _ _ f))]))) _ => some f
  | _ => none

/-- The value of a finished evaluation, if any. -/
def evalValue : EvalRes (Value × Store) → Option Value
  | .ok (v, _) => some v
  | _ => none

/-- Whether a value is the distinguished unspecified value. -/
def isUnspecified : Value → Bool
  | .unspecified => true
  | _ => false

/-- The parent chain of frame indices starting at `env`, as walked by
`EnvironmentRef::lookup` (truncated by fuel; `lookup` uses fuel
`length st + 1`, enough for any chain of frames allocated by
`allocEnv`). -/
def chainGo (st : Store) : Nat → Nat → List Nat
  | 0, _ => []
  | fuel+1, env =>
    env ::
      (match st[env]? with
       | some f =>
         match f.parent with
         | some p => chainGo st fuel p
         | none => []
       | none => [])

/-- The chain walked by `lookup st env`. -/
def chain (st : Store) (env : Nat) : List Nat :=
  chainGo st (List.length st + 1) env

/-- Whether frame `j` of the store binds `name`. -/
def frameBinds (st : Store) (j : Nat) (name : String) : Bool :=
  match st[j]? with
  | some f => List.contains f.names name
  | none => false

/-- A builtins registry for concrete runs that touch no builtin. -/
def B0 : Builtins := fun _ _ _ => .err "builtin"

/-- A store holding only an empty root frame. -/
def rootStore : Store := [⟨none, [], []⟩]

/-- The S-expression `(define (f x) (+ x 1))`. -/
def defnSugared : Value :=
  .cons (.symbol "define")
    (.cons (.cons (.symbol "f") (.cons (.symbol "x") .nil))
      (.cons (.cons (.symbol "+") (.cons (.symbol "x") (.cons (.int 1) .nil))) .nil))

/-- The S-expression `(define f (lambda (x) (+ x 1)))`. -/
def defnDesugared : Value :=
  .cons (.symbol "define")
    (.cons (.symbol "f")
      (.cons (.cons (.symbol "lambda")
        (.cons (.cons (.symbol "x") .nil)
          (.cons (.cons (.symbol "+") (.cons (.symbol "x") (.cons (.int 1) .nil))) .nil))) .nil))

/-- The S-expression
`(letrec* ((a (lambda () (b))) (b (lambda () 42))) (a))` from the
spec's forward-visibility property. -/
def letrecExample : Value :=
  .cons (.symbol "letrec*")
    (.cons
      (.cons (.cons (.symbol "a")
               (.cons (.cons (.symbol "lambda")
                        (.cons .nil (.cons (.cons (.symbol "b") .nil) .nil))) .nil))
        (.cons (.cons (.symbol "b")
                 (.cons (.cons (.symbol "lambda")
                          (.cons .nil (.cons (.int 42) .nil))) .nil))
          .nil))
      (.cons (.cons (.symbol "a") .nil) .nil))

/-- What `letrecExample` compiles to. -/
def letrecExampleCompiled : Expr :=
  .letrecE ["a", "b"]
    [.fn (.mk [] false (.app [.var "b"])), .fn (.mk [] false (.con (.int 42)))]
    (.app [.var "a"])

/-- The compiled `If` expression `If {cond: Con 1, t_expr: Con 2,
f_expr: Con 3}` — an `if` whose branches differ. -/
def cpsIfInput : Expr := .ifE (.con (.int 1)) (.con (.int 2)) (.con (.int 3))

/-- A closure with two required parameters and a rest parameter
(`params = [p, q, r]`, `rest = true`), whose body just returns 0,
captured at the root environment. -/
def restClosure : Value :=
  .lambda (.code (.mk ["p", "q", "r"] true (.con (.int 0)))) (.environment 0)

-- Theorems -------------------------------------------------------------------

/-- C9: the compiler rewrites `(define (name . formals) body...)` into
`(define name (lambda formals body...))` before compiling, repeating
until the pattern position holds a plain symbol; in particular
`(define (f x) (+ x 1))` compiles to the same expression structure as
`(define f (lambda (x) (+ x 1)))`. -/
theorem define_desugaring :
    (∀ (fuel : Nat) (dSym name formals rest : Value),
      parseDefine (fuel + 1) (.cons dSym (.cons (.cons name formals) rest)) =
        parseDefine fuel
          (.cons dSym
            (.cons name
              (.cons (.cons (.symbol "lambda") (.cons formals rest)) .nil))))
    ∧ compileToplevel 20 defnSugared = compileToplevel 20 defnDesugared
    ∧ compileToplevel 20 defnSugared =
        .ok (.defE "f" (.fn (.mk ["x"] false
          (.app [.var "+", .var "x", .con (.int 1)])))) := by
  refine ⟨fun fuel dSym name formals rest => rfl, rfl, rfl⟩

/-- C2 counterexample: the CPS transform's unimplemented cases do not
yield a reported error value — `cps` has no error channel at all (it
returns a bare `Expr` in Rust) and its `Fun`, `App`, `Letrec` and `Def`
arms execute `unimplemented!()`, a panic.  Applying `cps` to the
function literal `(lambda () '())` produces the crash outcome
`panicked` (not an `ok` carrying any tree, and not any error value —
the result type has no error constructor to return). -/
theorem cps_fun_panics_not_error_value :
    cps 5 0 (.fn (.mk [] false (.con .nil))) = .panicked := rfl

/-- C2 amended: for every input expression whose kind the CPS transform
does not support (`Fun`, `App`, `Letrec`, `Def`), applying `cps`
reaches Rust's `unimplemented!()` panic — an explicit "not implemented"
crash — never returning a transformed tree (and in particular never an
incorrect one). -/
theorem cps_unimplemented_cases_panic :
    ∀ (fuel n : Nat),
      (∀ c, cps (fuel + 1) n (.fn c) = .panicked) ∧
      (∀ es, cps (fuel + 1) n (.app es) = .panicked) ∧
      (∀ names exprs body, cps (fuel + 1) n (.letrecE names exprs body) = .panicked) ∧
      (∀ name e, cps (fuel + 1) n (.defE name e) = .panicked) := by
  intro fuel n
  exact ⟨fun c => rfl, fun es => rfl, fun names exprs body => rfl, fun name e => rfl⟩

/-- C1 (code bug): on the input `If {cond: Con 1, t_expr: Con 2,
f_expr: Con 3}` the CPS transform produces an `If` whose false branch
applies the CPS conversion of the *true*-branch source `Con 2` (the
source's `cps_if` passes `ifref.t_expr()` when building `f_expr`);
the constant `3` of the input's false branch occurs nowhere in the
output, although the claimed behavior — CPS-converting the false branch
from `Con 3` — would necessarily embed it. -/
theorem cps_if_false_branch_converted_from_true_branch :
    producedFalseBranch (cps 10 0 cpsIfInput) =
      some (call (lambdaE "#g6" (callContinuation "#g6" (.con (.int 2))))
        (lambdaE "#g3" (callContinuation "#g0" (.var "#g3")))) ∧
      Option.map (hasIntCon 2) (producedFalseBranch (cps 10 0 cpsIfInput)) = some true ∧
      Option.map (hasIntCon 3) (cpsOut (cps 10 0 cpsIfInput)) = some false := by
  refine ⟨rfl, ?_, ?_⟩ <;> simp [cps, cpsIfInput, gensym, producedFalseBranch, cpsOut,
    lambdaE, call, callContinuation, hasIntCon, hasIntConCode, hasIntConList]

/-- C8 counterexample: evaluating the definition `Def {name: x,
value: Con 1}` in a fresh root environment appends the binding but
yields the value `Nil` — not the distinct `Unspecified` value the claim
names as the result. -/
theorem define_result_is_nil_counterexample :
    evalToTailCall B0 5 (.defE "x" (.con (.int 1))) 0 rootStore =
      .ok (.value .nil, [⟨none, ["x"], [.int 1]⟩]) ∧
      isUnspecified Value.nil = false ∧ isUnspecified Value.unspecified = true := by
  exact ⟨rfl, rfl, rfl⟩

/-- C8 amended: for every `Define` expression the evaluator evaluates
the value expression in non-tail position, appends the binding to the
current frame, and yields the value `Nil` (not the distinct
unspecified value); likewise every `Assign` with a bound name yields
`Nil` after mutating the existing binding in place. -/
theorem define_and_set_result_nil :
    (∀ (B : Builtins) (fuel : Nat) (name : String) (ve : Expr) (env : Nat)
        (st : Store) (v : Value) (st1 : Store),
      evalCompiled B fuel ve env st = .ok (v, st1) →
      evalToTailCall B (fuel + 1) (.defE name ve) env st =
        .ok (.value .nil, envPush st1 env name v))
    ∧ (∀ (B : Builtins) (fuel : Nat) (name : String) (ve : Expr) (env : Nat)
        (st : Store) (v : Value) (st1 st2 : Store),
      evalCompiled B fuel ve env st = .ok (v, st1) →
      envSet st1 env name v = .ok st2 →
      evalToTailCall B (fuel + 1) (.setE name ve) env st =
        .ok (.value .nil, st2)) := by
  constructor
  · intro B fuel name ve env st v st1 h
    simp [evalToTailCall, h]
  · intro B fuel name ve env st v st1 st2 h h2
    simp [evalToTailCall, h, h2]

/-- Witness for `define_and_set_result_nil` at concrete inputs: a
definition of `x` in a fresh frame and an assignment to a bound `x`. -/
theorem define_and_set_result_nil_witness :
    evalToTailCall B0 5 (.defE "x" (.con (.int 1))) 0 rootStore =
      .ok (.value .nil, envPush rootStore 0 "x" (.int 1)) ∧
    evalToTailCall B0 5 (.setE "x" (.con (.int 2))) 0 [⟨none, ["x"], [.int 0]⟩] =
      .ok (.value .nil, [⟨none, ["x"], [.int 2]⟩]) := by
  constructor
  · exact define_and_set_result_nil.1 B0 4 "x" (.con (.int 1)) 0 rootStore (.int 1) rootStore rfl
  · exact define_and_set_result_nil.2 B0 4 "x" (.con (.int 2)) 0 [⟨none, ["x"], [.int 0]⟩]
      (.int 2) [⟨none, ["x"], [.int 0]⟩] [⟨none, ["x"], [.int 2]⟩] rfl rfl

/-- C3: evaluating an `App` evaluates the operator and then every
argument left to right in non-tail position and returns a pending
tail-call marker (operator value plus the fully evaluated argument
list) without invoking the callee; the driver loop `Trampoline::eval`
resolves pending markers iteratively — each iteration dispatches one
marker through `apply` and loops on the outcome — until a final value
is produced, so resolving a chain of tail calls is iteration of the
driver, not nested evaluator recursion. -/
theorem app_pending_tail_call_and_trampoline :
    (∀ (B : Builtins) (fuel : Nat) (fe : Expr) (argEs : List Expr) (env : Nat)
        (st : Store) (func : Value) (st1 : Store) (args : List Value) (st2 : Store),
      evalCompiled B fuel fe env st = .ok (func, st1) →
      evalArgs B fuel argEs env st1 = .ok (args, st2) →
      evalToTailCall B (fuel + 1) (.app (fe :: argEs)) env st =
        .ok (.tailCall func args, st2))
    ∧ (∀ (B : Builtins) (fuel : Nat) (e : Expr) (es : List Expr) (env : Nat)
        (st : Store) (v : Value) (st1 : Store) (vs : List Value) (st2 : Store),
      evalCompiled B fuel e env st = .ok (v, st1) →
      evalArgs B fuel es env st1 = .ok (vs, st2) →
      evalArgs B (fuel + 1) (e :: es) env st = .ok (v :: vs, st2))
    ∧ (∀ (B : Builtins) (fuel : Nat) (v : Value) (st : Store),
      trampolineEval B (fuel + 1) (.value v) st = .ok (v, st))
    ∧ (∀ (B : Builtins) (fuel : Nat) (func : Value) (args : List Value) (st : Store),
      trampolineEval B (fuel + 1) (.tailCall func args) st =
        (match applyF B fuel func args st with
         | .ok (t, st1) => trampolineEval B fuel t st1
         | .err m => .err m
         | .timeout => .timeout)) := by
  refine ⟨?_, ?_, fun B fuel v st => rfl, fun B fuel func args st => rfl⟩
  · intro B fuel fe argEs env st func st1 args st2 h1 h2
    simp [evalToTailCall, h1, h2]
  · intro B fuel e es env st v st1 vs st2 h1 h2
    simp [evalArgs, h1, h2]

/-- Witness for `app_pending_tail_call_and_trampoline`: evaluating the
application `(7 8)` (operator and argument are constants) yields the
pending marker `TailCall {func: 7, args: [8]}` and the marker list
`[8]` is built left to right. -/
theorem app_pending_tail_call_witness :
    evalToTailCall B0 4 (.app [.con (.int 7), .con (.int 8)]) 0 rootStore =
      .ok (.tailCall (.int 7) [.int 8], rootStore) ∧
    evalArgs B0 4 [.con (.int 8)] 0 rootStore = .ok ([.int 8], rootStore) := by
  constructor
  · exact app_pending_tail_call_and_trampoline.1 B0 3 (.con (.int 7)) [.con (.int 8)]
      0 rootStore (.int 7) rootStore [.int 8] rootStore rfl rfl
  · exact app_pending_tail_call_and_trampoline.2.1 B0 3 (.con (.int 8)) [] 0 rootStore
      (.int 8) rootStore [] rootStore rfl rfl

/-- C4: a `LetrecStar` with a non-empty binding list allocates exactly
one new child frame whose every slot initially holds the placeholder
`Nil`, runs the initializers in order against that frame (each stores
its value into its slot before the next runs), then evaluates the body
in tail position against that frame; the compiler turns a `letrec*`
with an empty binding list into just its body (no `Letrec` node, hence
no new frame); and the spec example
`(letrec* ((a (lambda () (b))) (b (lambda () 42))) (a))` compiles to
`letrecExampleCompiled` and evaluates to `42`. -/
theorem letrec_star_semantics :
    (∀ (B : Builtins) (fuel : Nat) (names : List String) (exprs : List Expr)
        (body : Expr) (env : Nat) (st : Store), names ≠ [] →
      evalToTailCall B (fuel + 1) (.letrecE names exprs body) env st =
        (match evalInits B fuel exprs (List.length st) 0
            (st ++ [⟨some env, names, List.map (fun _ => Value.nil) names⟩]) with
         | .ok st2 => evalToTailCall B fuel body (List.length st) st2
         | .err m => .err m
         | .timeout => .timeout))
    ∧ (∀ (B : Builtins) (fuel : Nat) (e : Expr) (rest : List Expr)
        (envIdx i : Nat) (st : Store),
      evalInits B (fuel + 1) (e :: rest) envIdx i st =
        (match evalCompiled B fuel e envIdx st with
         | .ok (v, st1) => evalInits B fuel rest envIdx (i + 1) (storeSetValue st1 envIdx i v)
         | .err m => .err m
         | .timeout => .timeout))
    ∧ (∀ (exprs : List Expr) (body : Expr), letrec [] exprs body = body)
    ∧ compileExpr 30 letrecExample = .ok letrecExampleCompiled
    ∧ (∀ B : Builtins,
        evalValue (evalCompiled B 40 letrecExampleCompiled 0 rootStore) =
          some (.int 42)) := by
  exact ⟨fun B fuel names exprs body env st _ => rfl,
    fun B fuel e rest envIdx i st => rfl,
    fun exprs body => rfl, rfl, fun B => rfl⟩

/-- Witness for `letrec_star_semantics`: the non-empty-bindings
equation at the concrete letrec of the spec example. -/
theorem letrec_star_semantics_witness :
    evalToTailCall B0 40 (.letrecE ["a", "b"]
        [.fn (.mk [] false (.app [.var "b"])), .fn (.mk [] false (.con (.int 42)))]
        (.app [.var "a"])) 0 rootStore =
      (match evalInits B0 39
          [.fn (.mk [] false (.app [.var "b"])), .fn (.mk [] false (.con (.int 42)))]
          (List.length rootStore) 0
          (rootStore ++ [⟨some 0, ["a", "b"],
            List.map (fun _ => Value.nil) ["a", "b"]⟩]) with
       | .ok st2 => evalToTailCall B0 39 (.app [.var "a"]) (List.length rootStore) st2
       | .err m => .err m
       | .timeout => .timeout) :=
  letrec_star_semantics.1 B0 39 ["a", "b"]
    [.fn (.mk [] false (.app [.var "b"])), .fn (.mk [] false (.con (.int 42)))]
    (.app [.var "a"]) 0 rootStore (by simp)

/-- C5: a closure call treats the required-parameter count as the
formal count minus one when the code has a rest parameter; too few
arguments is the arity error "apply: not enough arguments"; with no
rest parameter, surplus arguments give "apply: too many arguments";
with a rest parameter the surplus trailing arguments are collected in
order into one list bound in the new frame's last slot (under the rest
name, the last formal); concretely, a 2-required closure with a rest
parameter called with five arguments succeeds and binds the rest name
to the ordered list of the three surplus arguments. -/
theorem closure_arity_checking :
    (∀ (B : Builtins) (fuel : Nat) (c : Code) (parentIdx : Nat)
        (args : List Value) (st : Store),
      List.length args < List.length (Code.params c) - (if Code.rest c then 1 else 0) →
      applyF B (fuel + 1) (.lambda (.code c) (.environment parentIdx)) args st =
        .err "apply: not enough arguments")
    ∧ (∀ (B : Builtins) (fuel : Nat) (c : Code) (parentIdx : Nat)
        (args : List Value) (st : Store),
      Code.rest c = false →
      List.length (Code.params c) < List.length args →
      applyF B (fuel + 1) (.lambda (.code c) (.environment parentIdx)) args st =
        .err "apply: too many arguments")
    ∧ (∀ (B : Builtins) (fuel : Nat) (c : Code) (parentIdx : Nat)
        (args : List Value) (st : Store),
      Code.rest c = true →
      List.length (Code.params c) - 1 ≤ List.length args →
      applyF B (fuel + 1) (.lambda (.code c) (.environment parentIdx)) args st =
        evalToTailCall B fuel (Code.body c) (List.length st)
          (st ++ [⟨some parentIdx, Code.params c,
            List.take (List.length (Code.params c) - 1) args ++
              [listToValue (List.drop (List.length (Code.params c) - 1) args)]⟩]))
    ∧ applyF B0 5 restClosure [.int 1, .int 2, .int 3, .int 4, .int 5] rootStore =
        .ok (.value (.int 0),
          [⟨none, [], []⟩,
           ⟨some 0, ["p", "q", "r"],
            [.int 1, .int 2, .cons (.int 3) (.cons (.int 4) (.cons (.int 5) .nil))]⟩]) := by
  refine ⟨?_, ?_, ?_, rfl⟩
  · intro B fuel c parentIdx args st h
    simp [applyF, h]
  · intro B fuel c parentIdx args st hrest h
    simp [applyF, hrest, Nat.not_lt.2 h.le, h]
  · intro B fuel c parentIdx args st hrest h
    simp [applyF, hrest, Nat.not_lt.2 h, allocEnv]

/-- Witness for `closure_arity_checking`: a 2-required no-rest closure
rejects one argument and three arguments; the rest-parameter part at
the concrete 5-argument call of `restClosure`. -/
theorem closure_arity_checking_witness :
    applyF B0 5 (.lambda (.code (.mk ["p", "q"] false (.con .nil))) (.environment 0))
        [.int 1] rootStore = .err "apply: not enough arguments" ∧
    applyF B0 5 (.lambda (.code (.mk ["p", "q"] false (.con .nil))) (.environment 0))
        [.int 1, .int 2, .int 3] rootStore = .err "apply: too many arguments" ∧
    applyF B0 5 restClosure [.int 1, .int 2, .int 3, .int 4, .int 5] rootStore =
      evalToTailCall B0 4 (Code.body (.mk ["p", "q", "r"] true (.con (.int 0))))
        (List.length rootStore)
        (rootStore ++ [⟨some 0, ["p", "q", "r"],
          List.take 2 [.int 1, .int 2, .int 3, .int 4, .int 5] ++
            [listToValue (List.drop 2 [.int 1, .int 2, .int 3, .int 4, .int 5])]⟩]) := by
  refine ⟨?_, ?_, ?_⟩
  · exact closure_arity_checking.1 B0 4 (.mk ["p", "q"] false (.con .nil)) 0
      [.int 1] rootStore (by simp [Code.params, Code.rest])
  · exact closure_arity_checking.2.1 B0 4 (.mk ["p", "q"] false (.con .nil)) 0
      [.int 1, .int 2, .int 3] rootStore rfl (by simp [Code.params])
  · exact closure_arity_checking.2.2.1 B0 4 (.mk ["p", "q", "r"] true (.con (.int 0))) 0
      [.int 1, .int 2, .int 3, .int 4, .int 5] rootStore rfl (by simp [Code.params])

/-- Helper: the reverse scan finds no index exactly when the name is
not among the frame's names. -/
theorem lastIdxOf_eq_none_iff (name : String) (l : List String) :
    lastIdxOf name l = none ↔ ¬ name ∈ l := by
  induction l with
  | nil => simp [lastIdxOf]
  | cons n rest ih =>
    simp only [lastIdxOf, List.mem_cons]
    cases h : lastIdxOf name rest with
    | some i =>
      rw [h] at ih
      have hmem : name ∈ rest := by
        by_contra hm
        exact Option.noConfusion (ih.mpr hm)
      simp [hmem]
    | none =>
      rw [h] at ih
      have hrest : ¬ name ∈ rest := ih.mp rfl
      by_cases hn : n = name
      · simp [hn, hrest]
      · simp [hn, hrest, Ne.symm hn]

/-- Helper: an index returned by the reverse scan holds the name, and
no later (more recently appended) index does. -/
theorem lastIdxOf_spec (name : String) (l : List String) (i : Nat)
    (h : lastIdxOf name l = some i) :
    l[i]? = some name ∧ ∀ j, i < j → l[j]? ≠ some name := by
  induction l generalizing i with
  | nil => simp [lastIdxOf] at h
  | cons n rest ih =>
    simp only [lastIdxOf] at h
    cases hr : lastIdxOf name rest with
    | some i' =>
      rw [hr] at h
      injection h with hi
      obtain ⟨hget, hafter⟩ := ih i' hr
      constructor
      · rw [← hi]
        simpa using hget
      · intro j hj
        rw [← hi] at hj
        cases j with
        | zero => omega
        | succ j' =>
          simp only [List.getElem?_cons_succ]
          exact hafter j' (by omega)
    | none =>
      rw [hr] at h
      have hrest : ¬ name ∈ rest := (lastIdxOf_eq_none_iff name rest).mp hr
      by_cases hn : n = name
      · rw [if_pos hn] at h
        injection h with hi
        constructor
        · rw [← hi]
          simp [hn]
        · intro j hj
          rw [← hi] at hj
          cases j with
          | zero => omega
          | succ j' =>
            simp only [List.getElem?_cons_succ]
            intro hc
            exact hrest (List.getElem?_mem hc)
      · rw [if_neg hn] at h
        exact Option.noConfusion h

/-- C6: `lookup` scans the starting frame's bindings from most recently
added to oldest — so the index found is the last occurrence of the
name in the frame — then continues through the parent chain, and
returns the "undefined symbol" error exactly when no frame in the
chain binds the name; consequently, when one frame binds the same name
twice (a repeated `define` in one body), `get` resolves to the later
binding's value. -/
theorem lookup_scans_recent_first_then_parents :
    (∀ (name : String) (l : List String) (i : Nat), lastIdxOf name l = some i →
      l[i]? = some name ∧ ∀ j, i < j → l[j]? ≠ some name)
    ∧ (∀ (st : Store) (fuel env : Nat) (name : String) (f : Environment) (i : Nat),
      st[env]? = some f → lastIdxOf name f.names = some i →
      lookupGo st (fuel + 1) env name = .ok (env, i))
    ∧ (∀ (st : Store) (fuel env : Nat) (name : String) (f : Environment) (p : Nat),
      st[env]? = some f → lastIdxOf name f.names = none →
      f.parent = some p →
      lookupGo st (fuel + 1) env name = lookupGo st fuel p name)
    ∧ (∀ (st : Store) (fuel env : Nat) (name : String),
      lookupGo st fuel env name = .error ("undefined symbol: " ++ name) ↔
        ∀ j ∈ chainGo st fuel env, frameBinds st j name = false)
    ∧ (∀ (st : Store) (fuel env : Nat) (name : String) (j i : Nat),
      lookupGo st fuel env name = .ok (j, i) →
      j ∈ chainGo st fuel env ∧
        ∃ f, st[j]? = some f ∧ lastIdxOf name f.names = some i)
    ∧ (∀ (st : Store) (env : Nat) (name : String),
      lookup st env name = lookupGo st (List.length st + 1) env name)
    ∧ envGet [⟨none, ["x", "x"], [.int 1, .int 2]⟩] 0 "x" = .ok (.int 2) := by
  refine ⟨lastIdxOf_spec, ?_, ?_, ?_, ?_, fun st env name => rfl, rfl⟩
  · intro st fuel env name f i hf hL
    simp [lookupGo, hf, hL]
  · intro st fuel env name f p hf hL hp
    simp [lookupGo, hf, hL, hp]
  · intro st fuel
    induction fuel with
    | zero => intro env name; simp [lookupGo, chainGo]
    | succ fuel ih =>
      intro env name
      simp only [lookupGo, chainGo]
      cases hf : st[env]? with
      | none => simp [frameBinds, hf]
      | some f =>
        cases hL : lastIdxOf name f.names with
        | some i =>
          have hmem : name ∈ f.names := by
            by_contra hm
            rw [(lastIdxOf_eq_none_iff name f.names).mpr hm] at hL
            exact Option.noConfusion hL
          simp [frameBinds, hf, hL, hmem]
        | none =>
          have hnm : ¬ name ∈ f.names := (lastIdxOf_eq_none_iff name f.names).mp hL
          cases hp : f.parent with
          | some p => simp [frameBinds, hf, hL, hp, hnm, ih p name]
          | none => simp [frameBinds, hf, hL, hp, hnm]
  · intro st fuel
    induction fuel with
    | zero => intro env name j i h; simp [lookupGo] at h
    | succ fuel ih =>
      intro env name j i h
      simp only [lookupGo] at h
      cases hf : st[env]? with
      | none => simp only [hf] at h; exact absurd h (by simp)
      | some f =>
        simp only [hf] at h
        cases hL : lastIdxOf name f.names with
        | some i' =>
          simp only [hL, Except.ok.injEq, Prod.mk.injEq] at h
          obtain ⟨hj, hi⟩ := h
          subst hj
          subst hi
          exact ⟨by simp [chainGo], ⟨f, hf, hL⟩⟩
        | none =>
          simp only [hL] at h
          cases hp : f.parent with
          | some p =>
            simp only [hp] at h
            obtain ⟨hmem, hex⟩ := ih p name j i h
            exact ⟨by simp [chainGo, hf, hp, hmem], hex⟩
          | none => exact absurd (by simpa only [hp] using h) (by simp)

/-- Witness for `lookup_scans_recent_first_then_parents` at concrete
inputs: a frame binding `x` twice (the scan returns index 1, the later
binding), the frame-hit and parent-step equations, and the
ok-implies-binding fact. -/
theorem lookup_scans_recent_first_witness :
    ["x", "x"][1]? = some "x" ∧
    lookupGo [⟨none, ["x", "x"], [.int 1, .int 2]⟩] 3 0 "x" = .ok (0, 1) ∧
    lookupGo [⟨none, ["y"], [.int 0]⟩, ⟨some 0, [], []⟩] 3 1 "y" =
      lookupGo [⟨none, ["y"], [.int 0]⟩, ⟨some 0, [], []⟩] 2 0 "y" ∧
    0 ∈ chainGo [⟨none, ["x", "x"], [.int 1, .int 2]⟩] 2 0 := by
  refine ⟨?_, ?_, ?_, ?_⟩
  · exact (lookup_scans_recent_first_then_parents.1 "x" ["x", "x"] 1 rfl).1
  · exact lookup_scans_recent_first_then_parents.2.1
      [⟨none, ["x", "x"], [.int 1, .int 2]⟩] 2 0 "x" ⟨none, ["x", "x"], [.int 1, .int 2]⟩ 1 rfl rfl
  · exact lookup_scans_recent_first_then_parents.2.2.1
      [⟨none, ["y"], [.int 0]⟩, ⟨some 0, [], []⟩] 2 1 "y" ⟨some 0, [], []⟩ 0 rfl rfl rfl
  · exact (lookup_scans_recent_first_then_parents.2.2.2.2.1
      [⟨none, ["x", "x"], [.int 1, .int 2]⟩] 2 0 "x" 0 1 rfl).1

/-- C10: a successful environment `set` for a name found by `lookup` at
frame `j`, slot `i`, replaces the store by one where frame `j` keeps
its parent and name list and has exactly slot `i` of its value vector
overwritten; the store keeps its length, every other frame is untouched
and every other slot of frame `j` is untouched.  When the name is
unbound anywhere in the chain, `set` returns the lookup error (and, the
model being pure state-passing, no modified store at all). -/
theorem set_overwrites_single_slot :
    (∀ (st : Store) (env : Nat) (name : String) (v : Value) (j i : Nat) (f : Environment),
      lookup st env name = .ok (j, i) → st[j]? = some f →
      envSet st env name v = .ok (List.set st j ⟨f.parent, f.names, List.set f.values i v⟩))
    ∧ (∀ (st : Store) (env : Nat) (name : String) (v : Value) (m : String),
      lookup st env name = .error m → envSet st env name v = .error m)
    ∧ (∀ (st : Store) (j : Nat) (f' : Environment),
      List.length (List.set st j f') = List.length st)
    ∧ (∀ (st : Store) (j k : Nat) (f' : Environment), j ≠ k →
      (List.set st j f')[k]? = st[k]?)
    ∧ (∀ (st : Store) (j : Nat) (f f' : Environment), st[j]? = some f →
      (List.set st j f')[j]? = some f')
    ∧ (∀ (vals : List Value) (i i' : Nat) (v : Value), i ≠ i' →
      (List.set vals i v)[i']? = vals[i']?) := by
  refine ⟨?_, ?_, ?_, ?_, ?_, ?_⟩
  · intro st env name v j i f h1 h2
    simp [envSet, storeSetValue, h1, h2]
  · intro st env name v m h
    simp [envSet, h]
  · intro st j f'
    simp
  · intro st j k f' h
    exact List.getElem?_set_ne h
  · intro st j f f' h
    have : j < List.length st := by
      by_contra hj
      rw [List.getElem?_eq_none (Nat.le_of_not_lt hj)] at h
      exact Option.noConfusion h
    exact List.getElem?_set_eq_of_lt f' this
  · intro vals i i' v h
    exact List.getElem?_set_ne h

/-- Witness for `set_overwrites_single_slot` at a concrete two-frame
store: setting `x` through the child frame overwrites exactly slot 0 of
the root frame, and setting an unbound name reports the lookup
error. -/
theorem set_overwrites_single_slot_witness :
    envSet [⟨none, ["x"], [.int 1]⟩, ⟨some 0, [], []⟩] 1 "x" (.int 9) =
      .ok (List.set [⟨none, ["x"], [.int 1]⟩, ⟨some 0, [], []⟩] 0
        ⟨none, ["x"], List.set [.int 1] 0 (.int 9)⟩) ∧
    envSet [⟨none, ["x"], [.int 1]⟩, ⟨some 0, [], []⟩] 1 "zz" (.int 9) =
      .error ("undefined symbol: " ++ "zz") ∧
    (List.set [(⟨none, ["x"], [.int 1]⟩ : Environment), ⟨some 0, [], []⟩] 0
      ⟨none, ["x"], [.int 9]⟩)[1]? = [(⟨none, ["x"], [.int 1]⟩ : Environment), ⟨some 0, [], []⟩][1]? := by
  refine ⟨?_, ?_, ?_⟩
  · exact set_overwrites_single_slot.1 [⟨none, ["x"], [.int 1]⟩, ⟨some 0, [], []⟩]
      1 "x" (.int 9) 0 0 ⟨none, ["x"], [.int 1]⟩ rfl rfl
  · exact set_overwrites_single_slot.2.1 [⟨none, ["x"], [.int 1]⟩, ⟨some 0, [], []⟩]
      1 "zz" (.int 9) ("undefined symbol: " ++ "zz") rfl
  · exact set_overwrites_single_slot.2.2.2.1
      [⟨none, ["x"], [.int 1]⟩, ⟨some 0, [], []⟩] 0 1 ⟨none, ["x"], [.int 9]⟩ (by simp)

/-- Helper: the sequence builder always produces an expression
satisfying the normalization invariant when its inputs do. -/
theorem seqInv_seq (es : List Expr) (h : seqInvList es = true) :
    seqInv (seq es) = true := by
  match es with
  | [] => simp [seq, seqInv]
  | [e] =>
    simp only [seqInvList, Bool.and_eq_true] at h
    simpa [seq] using h.1
  | e1 :: e2 :: rest =>
    have hlen : 2 ≤ List.length rest + 1 + 1 := by omega
    simp [seq, seqInv, h, hlen]

/-- Helper: the letrec builder preserves the normalization invariant. -/
theorem seqInv_letrec (ns : List String) (es : List Expr) (b : Expr)
    (h1 : seqInvList es = true) (h2 : seqInv b = true) :
    seqInv (letrec ns es b) = true := by
  cases ns with
  | nil => simpa [letrec] using h2
  | cons n ns' => simp [letrec, seqInv, h1, h2]

/-- Helper: every compiler entry point only produces expressions
satisfying the sequence-normalization invariant, by induction on
fuel. -/
theorem compile_seqInv : ∀ fuel : Nat,
    (∀ v e, compileExpr fuel v = .ok e → seqInv e = true) ∧
    (∀ v es, compileListV fuel v = .ok es → seqInvList es = true) ∧
    (∀ vs es, compileList fuel vs = .ok es → seqInvList es = true) ∧
    (∀ forms ns es r, collectDefines fuel forms = .ok (ns, es, r) → seqInvList es = true) ∧
    (∀ v e, compileBody fuel v = .ok e → seqInv e = true) ∧
    (∀ v n e, parseDefine fuel v = .ok (n, e) → seqInv e = true) ∧
    (∀ v ns es, parseLetrecBindings fuel v = .ok (ns, es) → seqInvList es = true) := by
  intro fuel
  induction fuel with
  | zero =>
    refine ⟨?_, ?_, ?_, ?_, ?_, ?_, ?_⟩
    · intro v e h; simp [compileExpr] at h
    · intro v es h; simp [compileListV] at h
    · intro vs es h; simp [compileList] at h
    · intro forms ns es r h; simp [collectDefines] at h
    · intro v e h; simp [compileBody] at h
    · intro v n e h; simp [parseDefine] at h
    · intro v ns es h; simp [parseLetrecBindings] at h
  | succ fuel ih =>
    obtain ⟨ihE, ihLV, ihL, ihC, ihB, ihD, ihLB⟩ := ih
    refine ⟨?_, ?_, ?_, ?_, ?_, ?_, ?_⟩
    · intro v e h
      cases v
      case symbol s =>
        simp only [compileExpr, Except.ok.injEq] at h
        subst h
        simp [seqInv]
      case cons f tail =>
        have happ : ∀ v' e', (match compileListV fuel v' with
            | .ok es => Except.ok (Expr.app es)
            | .error m => Except.error m) = Except.ok e' → seqInv e' = true := by
          intro v' e' hm
          cases hc : compileListV fuel v' with
          | ok es =>
            simp only [hc, Except.ok.injEq] at hm
            subst hm
            simpa [seqInv] using ihLV _ _ hc
          | error m => simp [hc] at hm
        cases f
        case symbol s =>
          simp only [compileExpr] at h
          by_cases h1 : s = "lambda"
          · rw [if_pos h1] at h
            cases hA : Value.as_pair tail "syntax error in lambda" with
            | error m => simp [hA] at h
            | ok pr =>
              obtain ⟨paramList, bodyForms⟩ := pr
              simp only [hA] at h
              cases hP : parseParams paramList with
              | error m => simp [hP] at h
              | ok pr2 =>
                obtain ⟨names, rest⟩ := pr2
                simp only [hP] at h
                cases hBo : compileBody fuel bodyForms with
                | error m => simp [hBo] at h
                | ok body =>
                  simp only [hBo, Except.ok.injEq] at h
                  subst h
                  simpa [seqInv, seqInvCode] using ihB _ _ hBo
          · rw [if_neg h1] at h
            by_cases h2 : s = "quote"
            · rw [if_pos h2] at h
              cases hA : Value.as_pair tail "(quote) with no arguments" with
              | error m => simp [hA] at h
              | ok pr =>
                obtain ⟨datum, rest⟩ := pr
                simp only [hA] at h
                by_cases hN : rest.is_nil
                · simp only [hN, if_true, Except.ok.injEq] at h
                  subst h
                  simp [seqInv]
                · simp [hN] at h
            · rw [if_neg h2] at h
              by_cases h3 : s = "if"
              · rw [if_pos h3] at h
                cases hA : Value.as_pair tail "(if) with no arguments" with
                | error m => simp [hA] at h
                | ok pr =>
                  obtain ⟨c, rest⟩ := pr
                  simp only [hA] at h
                  cases hC : compileExpr fuel c with
                  | error m => simp [hC] at h
                  | ok cond =>
                    simp only [hC] at h
                    cases hA2 : Value.as_pair rest "missing arguments after (if COND)" with
                    | error m => simp [hA2] at h
                    | ok pr2 =>
                      obtain ⟨tc, rest2⟩ := pr2
                      simp only [hA2] at h
                      cases hT : compileExpr fuel tc with
                      | error m => simp [hT] at h
                      | ok t_expr =>
                        simp only [hT] at h
                        by_cases hN : rest2.is_nil
                        · simp only [hN, if_true, Except.ok.injEq] at h
                          subst h
                          simp [seqInv, ihE _ _ hC, ihE _ _ hT]
                        · simp only [hN, if_false, Bool.false_eq_true] at h
                          cases hA3 : Value.as_pair rest2 "missing 'else' argument after (if COND X)" with
                          | error m => simp [hA3] at h
                          | ok pr3 =>
                            obtain ⟨fc, rest3⟩ := pr3
                            simp only [hA3] at h
                            by_cases hN3 : rest3.is_nil
                            · simp only [hN3, if_true] at h
                              cases hF : compileExpr fuel fc with
                              | error m => simp [hF] at h
                              | ok f_expr =>
                                simp only [hF, Except.ok.injEq] at h
                                subst h
                                simp [seqInv, ihE _ _ hC, ihE _ _ hT, ihE _ _ hF]
                            · simp [hN3] at h
              · rw [if_neg h3] at h
                by_cases h4 : s = "begin"
                · rw [if_pos h4] at h
                  cases hLx : compileListV fuel tail with
                  | error m => simp [hLx] at h
                  | ok es =>
                    simp only [hLx, Except.ok.injEq] at h
                    subst h
                    exact seqInv_seq _ (ihLV _ _ hLx)
                · rw [if_neg h4] at h
                  by_cases h5 : s = "define"
                  · rw [if_pos h5] at h
                    simp at h
                  · rw [if_neg h5] at h
                    by_cases h6 : s = "letrec" ∨ s = "letrec*"
                    · rw [if_pos h6] at h
                      cases hA : Value.as_pair tail "letrec*: bindings required" with
                      | error m => simp [hA] at h
                      | ok pr =>
                        obtain ⟨bindings, bodyForms⟩ := pr
                        simp only [hA] at h
                        cases hLB : parseLetrecBindings fuel bindings with
                        | error m => simp [hLB] at h
                        | ok pr2 =>
                          obtain ⟨names, exprs⟩ := pr2
                          simp only [hLB] at h
                          cases hBo : compileBody fuel bodyForms with
                          | error m => simp [hBo] at h
                          | ok body =>
                            simp only [hBo, Except.ok.injEq] at h
                            subst h
                            exact seqInv_letrec _ _ _ (ihLB _ _ _ hLB) (ihB _ _ hBo)
                    · rw [if_neg h6] at h
                      by_cases h7 : s = "set!"
                      · rw [if_pos h7] at h
                        cases hA : Value.as_pair tail "(set!) with no name" with
                        | error m => simp [hA] at h
                        | ok pr =>
                          obtain ⟨first, rest⟩ := pr
                          simp only [hA] at h
                          cases hS : Value.as_symbol first "(set!) first argument must be a name" with
                          | error m => simp [hS] at h
                          | ok name =>
                            simp only [hS] at h
                            cases hA2 : Value.as_pair rest "(set!) with no value" with
                            | error m => simp [hA2] at h
                            | ok pr2 =>
                              obtain ⟨e0, rest2⟩ := pr2
                              simp only [hA2] at h
                              by_cases hN : rest2.is_nil
                              · simp only [hN, if_true] at h
                                cases hC : compileExpr fuel e0 with
                                | error m => simp [hC] at h
                                | ok value =>
                                  simp only [hC, Except.ok.injEq] at h
                                  subst h
                                  simpa [seqInv] using ihE _ _ hC
                              · simp [hN] at h
                      · rw [if_neg h7] at h
                        exact happ _ _ h
        all_goals (simp only [compileExpr] at h; exact happ _ _ h)
      case nil => simp [compileExpr] at h
      case unspecified => simp [compileExpr] at h
      case lambda a b => simp [compileExpr] at h
      case code c => simp [compileExpr] at h
      case builtin id => simp [compileExpr] at h
      case vector elems => simp [compileExpr] at h
      case environment idx => simp [compileExpr] at h
      case bool b =>
        simp only [compileExpr, Except.ok.injEq] at h
        subst h
        simp [seqInv]
      case int n =>
        simp only [compileExpr, Except.ok.injEq] at h
        subst h
        simp [seqInv]
      case char c =>
        simp only [compileExpr, Except.ok.injEq] at h
        subst h
        simp [seqInv]
      case immString s =>
        simp only [compileExpr, Except.ok.injEq] at h
        subst h
        simp [seqInv]
      case stringObj s =>
        simp only [compileExpr, Except.ok.injEq] at h
        subst h
        simp [seqInv]
    · intro v es h
      cases v
      case nil =>
        simp only [compileListV, Except.ok.injEq] at h
        subst h
        simp [seqInvList]
      case cons a d =>
        simp only [compileListV] at h
        cases hc : compileExpr fuel a with
        | error m => simp [hc] at h
        | ok e0 =>
          simp only [hc] at h
          cases hcs : compileListV fuel d with
          | error m => simp [hcs] at h
          | ok es0 =>
            simp only [hcs, Except.ok.injEq] at h
            subst h
            simp [seqInvList, ihE _ _ hc, ihLV _ _ hcs]
      all_goals simp [compileListV] at h
    · intro vs es h
      cases vs with
      | nil =>
        simp only [compileList, Except.ok.injEq] at h
        subst h
        simp [seqInvList]
      | cons v0 rest =>
        simp only [compileList] at h
        cases hc : compileExpr fuel v0 with
        | error m => simp [hc] at h
        | ok e0 =>
          simp only [hc] at h
          cases hcs : compileList fuel rest with
          | error m => simp [hcs] at h
          | ok es0 =>
            simp only [hcs, Except.ok.injEq] at h
            subst h
            simp [seqInvList, ihE _ _ hc, ihL _ _ hcs]
    · intro forms ns es r h
      cases forms with
      | nil =>
        simp only [collectDefines, Except.ok.injEq, Prod.mk.injEq] at h
        obtain ⟨-, he, -⟩ := h
        subst he
        simp [seqInvList]
      | cons form rest =>
        simp only [collectDefines] at h
        by_cases hd : isDefinition form
        · simp only [hd, if_true] at h
          cases hp : parseDefine fuel form with
          | error m => simp [hp] at h
          | ok pr =>
            obtain ⟨name, e0⟩ := pr
            simp only [hp] at h
            cases hc : collectDefines fuel rest with
            | error m => simp [hc] at h
            | ok tr =>
              obtain ⟨ns0, es0, r0⟩ := tr
              simp only [hc, Except.ok.injEq, Prod.mk.injEq] at h
              obtain ⟨-, he, -⟩ := h
              subst he
              simp [seqInvList, ihD _ _ _ hp, ihC _ _ _ _ hc]
        · simp only [hd, if_false, Bool.false_eq_true, Except.ok.injEq, Prod.mk.injEq] at h
          obtain ⟨-, he, -⟩ := h
          subst he
          simp [seqInvList]
    · intro v e h
      simp only [compileBody] at h
      cases hf : flattenBody v with
      | error m => simp [hf] at h
      | ok forms =>
        simp only [hf] at h
        cases hc : collectDefines fuel forms with
        | error m => simp [hc] at h
        | ok tr =>
          obtain ⟨names, exprs, restForms⟩ := tr
          simp only [hc] at h
          cases restForms with
          | nil => simp at h
          | cons r0 rs =>
            cases hl : compileList fuel (r0 :: rs) with
            | error m => simp [hl] at h
            | ok bodyExprs =>
              simp only [hl, Except.ok.injEq] at h
              subst h
              exact seqInv_letrec _ _ _ (ihC _ _ _ _ hc) (seqInv_seq _ (ihL _ _ hl))
    · intro v n e h
      simp only [parseDefine] at h
      cases hA : Value.as_pair v "internal error" with
      | error m => simp [hA] at h
      | ok pr =>
        obtain ⟨defineSymbol, tail⟩ := pr
        simp only [hA] at h
        cases hA2 : Value.as_pair tail "(define) with no name" with
        | error m => simp [hA2] at h
        | ok pr2 =>
          obtain ⟨pattern, rest⟩ := pr2
          simp only [hA2] at h
          cases pattern
          case symbol ident =>
            cases hA3 : Value.as_pair rest "(define) with no value" with
            | error m => simp [hA3] at h
            | ok pr3 =>
              obtain ⟨e0, rest2⟩ := pr3
              simp only [hA3] at h
              by_cases hN : rest2.is_nil
              · simp only [hN, if_true] at h
                cases hc : compileExpr fuel e0 with
                | error m => simp [hc] at h
                | ok value =>
                  simp only [hc, Except.ok.injEq, Prod.mk.injEq] at h
                  obtain ⟨-, hv⟩ := h
                  subst hv
                  exact ihE _ _ hc
              · simp [hN] at h
          case cons name formals => exact ihD _ _ _ h
          all_goals simp at h
    · intro v ns es h
      cases v
      case nil =>
        simp only [parseLetrecBindings, Except.ok.injEq, Prod.mk.injEq] at h
        obtain ⟨-, he⟩ := h
        subst he
        simp [seqInvList]
      case cons binding rest =>
        simp only [parseLetrecBindings] at h
        cases hA : Value.as_pair binding "letrec*: invalid binding" with
        | error m => simp [hA] at h
        | ok pr =>
          obtain ⟨nameV, r1⟩ := pr
          simp only [hA] at h
          cases hS : Value.as_symbol nameV "letrec*: name required" with
          | error m => simp [hS] at h
          | ok name =>
            simp only [hS] at h
            cases hA2 : Value.as_pair r1 "letrec*: value required for binding" with
            | error m => simp [hA2] at h
            | ok pr2 =>
              obtain ⟨e0, r2⟩ := pr2
              simp only [hA2] at h
              by_cases hN : r2.is_nil
              · simp only [hN, if_true] at h
                cases hc : compileExpr fuel e0 with
                | error m => simp [hc] at h
                | ok ce =>
                  simp only [hc] at h
                  cases hr : parseLetrecBindings fuel rest with
                  | error m => simp [hr] at h
                  | ok pr3 =>
                    obtain ⟨ns0, es0⟩ := pr3
                    simp only [hr, Except.ok.injEq, Prod.mk.injEq] at h
                    obtain ⟨-, he⟩ := h
                    subst he
                    simp [seqInvList, ihE _ _ hc, ihLB _ _ _ hr]
              · simp [hN] at h
      all_goals simp [parseLetrecBindings] at h

/-- C7: the sequence builder maps zero expressions to the constant
unspecified value, one expression to that expression unchanged, and
two or more to a `Seq` node; consequently every expression the
compiler outputs (toplevel or nested) satisfies the invariant that its
`Seq` nodes have at least two elements. -/
theorem seq_normalization_invariant :
    seq [] = .con .unspecified
    ∧ (∀ e, seq [e] = e)
    ∧ (∀ es, 2 ≤ List.length es → seq es = .seq es)
    ∧ (∀ fuel v e, compileToplevel fuel v = .ok e → seqInv e = true)
    ∧ (∀ fuel v e, compileExpr fuel v = .ok e → seqInv e = true) := by
  refine ⟨rfl, fun e => rfl, ?_, ?_, fun fuel v e h => (compile_seqInv fuel).1 v e h⟩
  · intro es h
    match es with
    | [] => exact absurd h (by simp)
    | [e] => exact absurd h (by simp)
    | e1 :: e2 :: rest => rfl
  · intro fuel v e h
    simp only [compileToplevel] at h
    by_cases hd : isDefinition v
    · simp only [hd, if_true] at h
      cases hp : parseDefine fuel v with
      | error m => simp [hp] at h
      | ok pr =>
        obtain ⟨name, value⟩ := pr
        simp only [hp, Except.ok.injEq] at h
        subst h
        simpa [seqInv] using (compile_seqInv fuel).2.2.2.2.2.1 v name value hp
    · simp only [hd, if_false, Bool.false_eq_true] at h
      exact (compile_seqInv fuel).1 v e h

/-- Witness for `seq_normalization_invariant`: the two-element case
builds a `Seq` node, and the invariant holds of the concrete
compilation of `(define (f x) (+ x 1))`. -/
theorem seq_normalization_invariant_witness :
    seq [.var "a", .var "b"] = .seq [.var "a", .var "b"] ∧
    seqInv (.defE "f" (.fn (.mk ["x"] false
      (.app [.var "+", .var "x", .con (.int 1)])))) = true := by
  constructor
  · exact seq_normalization_invariant.2.2.1 [.var "a", .var "b"] (by simp)
  · exact seq_normalization_invariant.2.2.2.1 20 defnSugared
      (.defE "f" (.fn (.mk ["x"] false (.app [.var "+", .var "x", .con (.int 1)])))) rfl

end Lisp
